import Mathlib

/-!
Verification development for the `the-wedding` gallery application.

The definitions below are a shallow embedding of the TypeScript source:

* `src/types/index.ts` — the data model (`ImageVariant`, `ImageMetadata`,
  `PhotoManifest`);
* the responsive-variant module (`getResponsiveVariant`, `BREAKPOINTS`);
* the server-side manifest reader (`readManifest`, `getImages`,
  `getImageById`, `getImagesByCategory`, `getAllImages`);
* `src/lib/image-cache.ts` (`isImageLoaded`, `markImageLoaded`);
* `src/scripts/upload-images.ts` — batching of the upload queue and the
  manifest assembler (`batches`, `uploadTrace`, `buildEntry`,
  `constructManifest`);
* `src/scripts/optimize-images.ts` — variant generation with sharp's
  `withoutEnlargement` resize (`sharpResize`, `processSizes`).

JavaScript runtime objects with string keys are embedded as association
lists (preserving insertion order, as JS objects do for string keys);
optional/undefined values as `Option`; numbers that the program uses as
integral pixel sizes or indices as `Nat`; thrown exceptions as `Except`
inputs where the source catches them.
-/

/-- JS `String.split` with a single-character separator, on the character
list: `"".split(sep)` is `[""]`, separators delimit possibly-empty
fields. -/
def splitList (sep : Char) : List Char → List (List Char)
  | [] => [[]]
  | c :: cs =>
    if c = sep then [] :: splitList sep cs
    else
      match splitList sep cs with
      | [] => [[c]]
      | h :: t => (c :: h) :: t

/-- JS `s.split(sep)` for a one-character separator (here `path.sep`,
i.e. `'/'`). -/
def jsSplit (sep : Char) (s : String) : List String :=
  (splitList sep s.data).map String.mk

/-- JS truthiness of an optional string (`undefined`/`null` and `""` are
falsy). -/
def strTruthy : Option String → Bool
  | some s => decide (s ≠ "")
  | none => false

/-! ## Data model (`src/types/index.ts`) -/

/-- `ImageVariant`: `width`/`height` plus the optional `relativePath`
(local metadata) and `url` (remote manifest) fields. -/
structure ImageVariant where
  width : Nat
  height : Nat
  relativePath : Option String := none
  url : Option String := none
deriving DecidableEq

/-- The four required variants of `ImageMetadata.variants`. -/
structure MetaVariants where
  mobile : ImageVariant
  tablet : ImageVariant
  desktop : ImageVariant
  full : ImageVariant
deriving DecidableEq

/-- `Object.entries(meta.variants)` in the object's insertion order
(the declaration order of the `ImageMetadata.variants` type). -/
def metaEntries (v : MetaVariants) : List (String × ImageVariant) :=
  [("mobile", v.mobile), ("tablet", v.tablet), ("desktop", v.desktop), ("full", v.full)]

/-- `meta.variants[size]` for a string key `size`. -/
def metaLookup (v : MetaVariants) (size : String) : Option ImageVariant :=
  List.lookup size (metaEntries v)

/-- `ImageMetadata`: one record per source photo, written by the
optimizer and read by the uploader. -/
structure ImageMetadata where
  originalName : String
  relativePathBase : String
  variants : MetaVariants
  blurDataUrl : String
deriving DecidableEq

/-- `PhotoManifest`: a finished manifest entry.  Its `variants` object is
built at runtime key by key, so it is embedded as an association list of
string keys. -/
structure PhotoManifest where
  id : String
  category : String
  timeOfDay : String
  blurDataUrl : String
  variants : List (String × ImageVariant)
  url : String
  width : Nat
  height : Nat
deriving DecidableEq

/-! ## Responsive variant selection -/

/-- The `BREAKPOINTS` record matching the variant sizes. -/
structure Breakpoints where
  mobile : Nat
  tablet : Nat
  desktop : Nat

def BREAKPOINTS : Breakpoints := { mobile := 640, tablet := 1280, desktop := 1920 }

/-- The `{ url, width, height }` object `getResponsiveVariant` returns. -/
structure ResponsiveRef where
  url : String
  width : Nat
  height : Nat
deriving DecidableEq

/-- `photo.variants.x` — property access on the runtime variants
object. -/
def variantsGet (vs : List (String × ImageVariant)) (k : String) : Option ImageVariant :=
  List.lookup k vs

/-- The guard-and-return of one branch of `getResponsiveVariant`:
`x?.url` is truthy exactly when the variant exists and its `url` is a
non-empty string, and then the branch returns that variant's
`{url, width, height}`. -/
def pickRef : Option ImageVariant → Option ResponsiveRef
  | some v =>
    match v.url with
    | some s => if s = "" then none else some { url := s, width := v.width, height := v.height }
    | none => none
  | none => none

/-- `getResponsiveVariant(photo, width)`: tablet at widths up to the
tablet breakpoint, desktop up to the desktop breakpoint, then full, then
the top-level fallback. -/
def getResponsiveVariant (photo : PhotoManifest) (width : Nat) : ResponsiveRef :=
  match (if width ≤ BREAKPOINTS.tablet then pickRef (variantsGet photo.variants "tablet") else none) with
  | some r => r
  | none =>
    match (if width ≤ BREAKPOINTS.desktop then pickRef (variantsGet photo.variants "desktop") else none) with
    | some r => r
    | none =>
      match pickRef (variantsGet photo.variants "full") with
      | some r => r
      | none => { url := photo.url, width := photo.width, height := photo.height }

/-! ## Server-side manifest reader -/

/-- `GetImagesOptions`: both fields optional and nullable. -/
structure GetImagesOptions where
  category : Option String := none
  id : Option String := none

/-- The union return type
`PhotoManifest[] | PhotoManifest | null` of `getImages`. -/
inductive GetImagesResult where
  | many (l : List PhotoManifest)
  | one (p : PhotoManifest)
  | nothing
deriving DecidableEq

/-- The file-system read plus `JSON.parse`, as seen by `readManifest`:
either the parsed manifest array or a thrown error. -/
abbrev FsEnv : Type := Except String (List PhotoManifest)

/-- `readManifest()`: the parsed file, or `[]` when reading or parsing
throws. -/
def readManifest : FsEnv → List PhotoManifest
  | .ok m => m
  | .error _ => []

/-- `getImages(options)`: `id` branch first (JS truthiness, so a missing,
null or empty `id` falls through), then `category`, then the whole
manifest. -/
def getImages (env : FsEnv) (options : Option GetImagesOptions) : GetImagesResult :=
  let manifest := readManifest env
  let idOpt := options.bind (·.id)
  let catOpt := options.bind (·.category)
  if strTruthy idOpt then
    match manifest.find? (fun photo => photo.id == idOpt.getD "") with
    | some photo => .one photo
    | none => .nothing
  else if strTruthy catOpt then
    .many (manifest.filter (fun photo => photo.category == catOpt.getD ""))
  else
    .many manifest

/-- `getImageById(id)`. -/
def getImageById (env : FsEnv) (id : String) : GetImagesResult :=
  getImages env (some { id := some id })

/-- `getImagesByCategory(category)`. -/
def getImagesByCategory (env : FsEnv) (category : String) : GetImagesResult :=
  getImages env (some { category := some category })

/-- `getAllImages()`. -/
def getAllImages (env : FsEnv) : GetImagesResult :=
  getImages env none

/-! ## Image load-state cache (`src/lib/image-cache.ts`) -/

/-- The module-level `loadedImages` set starts empty at page load. -/
def initialLoadedImages : Finset String := ∅

/-- `isImageLoaded(url)`. -/
def isImageLoaded (loadedImages : Finset String) (url : String) : Bool :=
  decide (url ∈ loadedImages)

/-- `markImageLoaded(url)` — `Set.add`. -/
def markImageLoaded (loadedImages : Finset String) (url : String) : Finset String :=
  insert url loadedImages

/-! ## Upload script: batching (`src/scripts/upload-images.ts`) -/

def BATCH_SIZE : Nat := 5

/-- The `for (let i = 0; i < queue.length; i += BATCH_SIZE)` loop's
partition of the upload queue: `queue.slice(i, i + BATCH_SIZE)` for
`i = 0, 5, 10, …`. -/
def batches {α : Type} : List α → List (List α)
  | [] => []
  | x :: xs => ((x :: xs).take BATCH_SIZE) :: batches ((x :: xs).drop BATCH_SIZE)
termination_by l => l.length
decreasing_by simp [BATCH_SIZE]; omega

/-- Events of the sequential batch loop: a batch beginning
(`console.log` + `uploadFiles` call) and a task settling (its slot in the
awaited `responses` array). -/
inductive BatchEv (τ : Type) where
  | batchStart (k : Nat)
  | taskSettled (k : Nat) (t : τ)
deriving DecidableEq

/-- The batch index an event belongs to. -/
def BatchEv.idx {τ : Type} : BatchEv τ → Nat
  | .batchStart k => k
  | .taskSettled k _ => k

/-- The event trace of the batch loop from batch number `n` on: each
iteration fully awaits its batch (all its tasks settle) before the next
iteration begins. -/
def traceFrom {τ : Type} (n : Nat) : List (List τ) → List (BatchEv τ)
  | [] => []
  | b :: bs => (BatchEv.batchStart n :: b.map (BatchEv.taskSettled n)) ++ traceFrom (n + 1) bs

/-- The whole upload run's event trace. -/
def uploadTrace {τ : Type} (queue : List τ) : List (BatchEv τ) :=
  traceFrom 0 (batches queue)

/-! ## Upload script: manifest assembly -/

/-- One successful `uploadFiles` response datum, as cached in
`uploadedUrls[metaIndex][sizeName]`. -/
structure UTUpload where
  url : String
  key : String
deriving DecidableEq

/-- `let category = "Uncategorized"; if (parts.length >= 1) category = parts[0]`. -/
def inferCategory (parts : List String) : String :=
  if parts.length ≥ 1 then parts.getD 0 "Uncategorized" else "Uncategorized"

/-- `let timeOfDay = "Day"; if (parts.length >= 2) timeOfDay = parts[1]`. -/
def inferTimeOfDay (parts : List String) : String :=
  if parts.length ≥ 2 then parts.getD 1 "Day" else "Day"

/-- `uploadedVariants['desktop'] ? 'desktop' : uploadedVariants['tablet'] ?
'tablet' : Object.keys(uploadedVariants)[0]` — `undefined` when the
object is empty. -/
def defaultVariantKey (uploadedVariants : List (String × UTUpload)) : Option String :=
  if (List.lookup "desktop" uploadedVariants).isSome then some "desktop"
  else if (List.lookup "tablet" uploadedVariants).isSome then some "tablet"
  else uploadedVariants.head?.map (·.1)

/-- The body of the manifest-assembly `forEach`: given one metadata
record and its slot of `uploadedUrls` (`none` when no variant upload
succeeded), the manifest entry pushed for it, or `none` when the photo
is skipped. -/
def buildEntry (meta : ImageMetadata)
    (uploadedVariants : Option (List (String × UTUpload))) : Option PhotoManifest :=
  match uploadedVariants with
  | none => none
  | some uv =>
    let parts := jsSplit '/' meta.relativePathBase
    let category := inferCategory parts
    let timeOfDay := inferTimeOfDay parts
    let manifestVariants : List (String × ImageVariant) :=
      (metaEntries meta.variants).filterMap fun p =>
        match List.lookup p.1 uv with
        | some u => some (p.1, { width := p.2.width, height := p.2.height, url := some u.url })
        | none => none
    match defaultVariantKey uv with
    | none => none
    | some k =>
      if k = "" then none
      else
        match List.lookup k uv with
        | none => none
        | some u =>
          some { id := u.key, category := category, timeOfDay := timeOfDay,
                 blurDataUrl := meta.blurDataUrl, variants := manifestVariants,
                 url := u.url,
                 width := ((metaLookup meta.variants k).getD { width := 0, height := 0 }).width,
                 height := ((metaLookup meta.variants k).getD { width := 0, height := 0 }).height }

/-- The manifest-assembly loop over `metadataList` with its indices. -/
def constructManifest (metadataList : List ImageMetadata)
    (uploadedUrls : Nat → Option (List (String × UTUpload))) : List PhotoManifest :=
  metadataList.enum.filterMap fun p => buildEntry p.2 (uploadedUrls p.1)

/-! ## Optimizer script (`src/scripts/optimize-images.ts`) -/

/-- The pixel dimensions of an image file. -/
structure RawImage where
  width : Nat
  height : Nat
deriving DecidableEq

/-- The `SIZES` record, in object insertion order. -/
def SIZES : List (String × Nat) := [("mobile", 640), ("tablet", 1280), ("desktop", 1920), ("full", 3840)]

/-- `sharp(input).resize({ width, withoutEnlargement: true })`: shrink to
the target width keeping aspect ratio (height rounded to nearest), but
never enlarge beyond the native width. -/
def sharpResize (img : RawImage) (target : Nat) : RawImage :=
  if img.width ≤ target then img
  else { width := target, height := (2 * target * img.height + img.width) / (2 * img.width) }

/-- The files written by `toFile`, newest first; `metadata()` reads the
most recent write to a path. -/
abbrev FileStore := List (String × RawImage)

/-- The per-size loop of `processSingleFile`: write each resized variant
to its output path, then read the stored file's metadata back for the
recorded `width`/`height` (`meta.width || 0`). -/
def processSizes (src : RawImage) (outputSubDir relativeDir fileNameNoExt : String) :
    List (String × Nat) → FileStore → FileStore × List (String × ImageVariant)
  | [], store => (store, [])
  | p :: rest, store =>
    let outFileName := fileNameNoExt ++ "-" ++ p.1 ++ ".webp"
    let outputPath := outputSubDir ++ "/" ++ outFileName
    let store1 : FileStore := (outputPath, sharpResize src p.2) :: store
    let m := List.lookup outputPath store1
    let v : ImageVariant :=
      { width := (m.map (·.width)).getD 0, height := (m.map (·.height)).getD 0,
        relativePath := some (relativeDir ++ "/" ++ outFileName) }
    let r := processSizes src outputSubDir relativeDir fileNameNoExt rest store1
    (r.1, (p.1, v) :: r.2)

/-- The variants object recorded by `processSingleFile` for one source
image. -/
def processSingleFileVariants (src : RawImage) (outputSubDir relativeDir fileNameNoExt : String) :
    List (String × ImageVariant) :=
  (processSizes src outputSubDir relativeDir fileNameNoExt SIZES []).2

/-! ## Helper lemmas -/

/-- A reference produced by a `pickRef` guard always has a non-empty
url. -/
theorem pickRef_url_ne {o : Option ImageVariant} {r : ResponsiveRef}
    (h : pickRef o = some r) : r.url ≠ "" := by
  match o with
  | none => simp [pickRef] at h
  | some v =>
    match hv : v.url with
    | none => simp [pickRef, hv] at h
    | some s =>
      by_cases hs : s = ""
      · simp [pickRef, hv, hs] at h
      · simp only [pickRef, hv, if_neg hs, Option.some.injEq] at h
        rw [← h]
        simpa using hs

/-! ## C1: responsive variant selection -/

/-- A concrete manifest entry: `desktop` variant present (with a distinct
url), `tablet` and `full` absent, distinct top-level fallback. -/
def photoAboveDesktop : PhotoManifest :=
  { id := "i", category := "c", timeOfDay := "t", blurDataUrl := "b",
    variants := [("desktop", { width := 1900, height := 950, url := some "d" })],
    url := "orig", width := 10, height := 20 }

/-- C1 counterexample: at a viewport width above the desktop breakpoint
(2000 > 1920), with `full` absent but `desktop` present, the selector
returns the top-level fallback, not the desktop variant — refuting the
claimed fall-through `full → desktop → top-level`. -/
theorem getResponsiveVariant_desktop_fallback_counterexample :
    variantsGet photoAboveDesktop.variants "desktop" =
      some { width := 1900, height := 950, url := some "d" } ∧
    variantsGet photoAboveDesktop.variants "full" = none ∧
    BREAKPOINTS.desktop < 2000 ∧
    getResponsiveVariant photoAboveDesktop 2000 = { url := "orig", width := 10, height := 20 } ∧
    getResponsiveVariant photoAboveDesktop 2000 ≠ { url := "d", width := 1900, height := 950 } := by
  decide

/-- C1 (amended): for `w ≤ 1280` the selector prefers
`tablet → desktop → full → top-level`; for `w > 1920` it returns `full`
if present else the top-level fallback (the desktop variant is not
consulted above the desktop breakpoint); in every case the result is
usable — its url is non-empty unless it is the entry's top-level
fallback. -/
theorem getResponsiveVariant_breakpoint_policy (photo : PhotoManifest) (w : Nat) :
    (w ≤ BREAKPOINTS.tablet →
      getResponsiveVariant photo w =
        ((pickRef (variantsGet photo.variants "tablet")).getD
          ((pickRef (variantsGet photo.variants "desktop")).getD
            ((pickRef (variantsGet photo.variants "full")).getD
              { url := photo.url, width := photo.width, height := photo.height })))) ∧
    (BREAKPOINTS.desktop < w →
      getResponsiveVariant photo w =
        (pickRef (variantsGet photo.variants "full")).getD
          { url := photo.url, width := photo.width, height := photo.height }) ∧
    ((getResponsiveVariant photo w).url ≠ "" ∨
      getResponsiveVariant photo w = { url := photo.url, width := photo.width, height := photo.height }) := by
  have htd : w ≤ BREAKPOINTS.tablet → w ≤ BREAKPOINTS.desktop := by
    simp [BREAKPOINTS]; omega
  refine ⟨?_, ?_, ?_⟩
  · intro h
    rw [getResponsiveVariant, if_pos h, if_pos (htd h)]
    rcases htab : pickRef (variantsGet photo.variants "tablet") with _ | rt <;>
      rcases hdesk : pickRef (variantsGet photo.variants "desktop") with _ | rd <;>
        rcases hfull : pickRef (variantsGet photo.variants "full") with _ | rf <;>
          simp
  · intro h
    have h1 : ¬ w ≤ BREAKPOINTS.tablet := by simp [BREAKPOINTS] at h ⊢; omega
    have h2 : ¬ w ≤ BREAKPOINTS.desktop := by simp [BREAKPOINTS] at h ⊢; omega
    rw [getResponsiveVariant, if_neg h1, if_neg h2]
    rcases hfull : pickRef (variantsGet photo.variants "full") with _ | rf <;> simp
  · rw [getResponsiveVariant]
    rcases h1 : (if w ≤ BREAKPOINTS.tablet then pickRef (variantsGet photo.variants "tablet") else none) with _ | rt
    · rcases h2 : (if w ≤ BREAKPOINTS.desktop then pickRef (variantsGet photo.variants "desktop") else none) with _ | rd
      · rcases h3 : pickRef (variantsGet photo.variants "full") with _ | rf
        · simp
        · left
          exact pickRef_url_ne h3
      · left
        by_cases hc : w ≤ BREAKPOINTS.desktop
        · rw [if_pos hc] at h2
          exact pickRef_url_ne h2
        · rw [if_neg hc] at h2; simp at h2
    · left
      by_cases hc : w ≤ BREAKPOINTS.tablet
      · rw [if_pos hc] at h1
        exact pickRef_url_ne h1
      · rw [if_neg hc] at h1; simp at h1

/-- A concrete manifest entry with only a `tablet` variant. -/
def photoTabletOnly : PhotoManifest :=
  { id := "i", category := "c", timeOfDay := "t", blurDataUrl := "b",
    variants := [("tablet", { width := 1280, height := 640, url := some "t" })],
    url := "orig", width := 10, height := 20 }

/-- C1 witness: the amended policy evaluated at viewport widths 320 and
2000 on a concrete entry. -/
theorem getResponsiveVariant_breakpoint_policy_witness :
    (320 ≤ BREAKPOINTS.tablet ∧
      getResponsiveVariant photoTabletOnly 320 = { url := "t", width := 1280, height := 640 }) ∧
    (BREAKPOINTS.desktop < 2000 ∧
      getResponsiveVariant photoTabletOnly 2000 = { url := "orig", width := 10, height := 20 }) := by
  have h1 := (getResponsiveVariant_breakpoint_policy photoTabletOnly 320).1 (by decide)
  have h2 := (getResponsiveVariant_breakpoint_policy photoTabletOnly 2000).2.1 (by decide)
  refine ⟨⟨by decide, ?_⟩, by decide, ?_⟩
  · rw [h1]; decide
  · rw [h2]; decide

/-! ## C2: category/time inference from the relative path -/

/-- A metadata record for a photo that sat directly in the input root,
so its `relativePathBase` is the empty string. -/
def metaRootPhoto : ImageMetadata :=
  { originalName := "p.webp", relativePathBase := "",
    variants := { mobile := { width := 640, height := 320 }, tablet := { width := 1280, height := 640 },
                  desktop := { width := 1920, height := 960 }, full := { width := 3840, height := 1920 } },
    blurDataUrl := "blur" }

/-- C2: `"".split(path.sep)` is `[""]`, so `parts.length >= 1` always
holds and the `"Uncategorized"` default is unreachable: an empty
`relativePathBase` yields the empty-string category, contradicting the
documented default, while the non-degenerate examples behave as
specified. -/
theorem inferCategory_empty_path_bug :
    jsSplit '/' "" = [""] ∧
    inferCategory (jsSplit '/' "") = "" ∧
    inferCategory (jsSplit '/' "") ≠ "Uncategorized" ∧
    inferTimeOfDay (jsSplit '/' "") = "Day" ∧
    inferCategory (jsSplit '/' "Ceremony/Afternoon") = "Ceremony" ∧
    inferTimeOfDay (jsSplit '/' "Ceremony/Afternoon") = "Afternoon" ∧
    inferCategory (jsSplit '/' "Portraits") = "Portraits" ∧
    inferTimeOfDay (jsSplit '/' "Portraits") = "Day" ∧
    (buildEntry metaRootPhoto (some [("desktop", { url := "u", key := "k" })])).map
      PhotoManifest.category = some "" := by
  decide

/-! ## C6: manifest reader soft-fail -/

/-- C6: when reading or parsing the manifest throws, `getAllImages` and
`getImagesByCategory` return the empty list and `getImageById` returns
null (for the degenerate empty-string id, the JS truthiness fall-through
returns the empty list instead — still a renderable "no data" value);
no error is propagated. -/
theorem manifest_reader_soft_fail (err c id0 : String) :
    getAllImages (.error err) = .many [] ∧
    getImagesByCategory (.error err) c = .many [] ∧
    getImageById (.error err) id0 = (if id0 = "" then .many [] else .nothing) := by
  refine ⟨?_, ?_, ?_⟩
  · simp [getAllImages, getImages, readManifest, strTruthy]
  · by_cases hc : c = "" <;>
      simp [getImagesByCategory, getImages, readManifest, strTruthy, hc]
  · by_cases hid : id0 = "" <;>
      simp [getImageById, getImages, readManifest, strTruthy, hid]

/-! ## C7: image load-state cache -/

/-- Marking more images never unmarks one already in the cache. -/
theorem mem_foldl_markImageLoaded (session : List String) (s : Finset String) (u : String)
    (hs : u ∈ s) : u ∈ session.foldl markImageLoaded s := by
  induction session generalizing s with
  | nil => simpa using hs
  | cons a t ih => exact ih _ (by simp [markImageLoaded, hs])

/-- A url never marked is not in the cache grown from a markless start. -/
theorem not_mem_foldl_markImageLoaded (session : List String) (s : Finset String) (u : String)
    (hu : u ∉ session) (hs : u ∉ s) : u ∉ session.foldl markImageLoaded s := by
  induction session generalizing s with
  | nil => simpa using hs
  | cons a t ih =>
    simp only [List.mem_cons, not_or] at hu
    refine ih _ hu.2 ?_
    simp only [markImageLoaded, Finset.mem_insert, not_or]
    exact ⟨hu.1, hs⟩

/-- C7: `markImageLoaded` is idempotent; a url never marked during the
session reads as not loaded; once marked, it reads as loaded for the
rest of the session whatever else is marked. -/
theorem image_cache_mark_idempotent (cache : Finset String) (u : String) (session : List String) :
    markImageLoaded (markImageLoaded cache u) u = markImageLoaded cache u ∧
    (u ∉ session → isImageLoaded (session.foldl markImageLoaded initialLoadedImages) u = false) ∧
    isImageLoaded (session.foldl markImageLoaded (markImageLoaded cache u)) u = true := by
  refine ⟨?_, ?_, ?_⟩
  · simp [markImageLoaded, Finset.insert_idem]
  · intro hu
    simp only [isImageLoaded, decide_eq_false_iff_not]
    exact not_mem_foldl_markImageLoaded session _ u hu (by simp [initialLoadedImages])
  · simp only [isImageLoaded, decide_eq_true_eq]
    exact mem_foldl_markImageLoaded session _ u (by simp [markImageLoaded])

/-- C7 witness: a concrete session marking `"b"` then `"c"`. -/
theorem image_cache_mark_idempotent_witness :
    markImageLoaded (markImageLoaded initialLoadedImages "a") "a" =
      markImageLoaded initialLoadedImages "a" ∧
    isImageLoaded (["b", "c"].foldl markImageLoaded initialLoadedImages) "a" = false ∧
    isImageLoaded (["b", "c"].foldl markImageLoaded (markImageLoaded initialLoadedImages "a")) "a" = true := by
  have h := image_cache_mark_idempotent initialLoadedImages "a" ["b", "c"]
  exact ⟨h.1, h.2.1 (by decide), h.2.2⟩

/-! ## C10: id precedence in `getImages` -/

/-- Two concrete manifest entries in different categories. -/
def photoCatA : PhotoManifest :=
  { id := "x", category := "A", timeOfDay := "t", blurDataUrl := "b",
    variants := [], url := "ua", width := 1, height := 1 }

def photoCatB : PhotoManifest :=
  { id := "y", category := "B", timeOfDay := "t", blurDataUrl := "b",
    variants := [], url := "ub", width := 2, height := 2 }

/-- A successfully loaded two-entry manifest. -/
def envTwoPhotos : FsEnv := .ok [photoCatA, photoCatB]

/-- C10 counterexample: with `id` set to the empty string and `category`
set, the category filter is applied (JS truthiness treats `""` as
absent), so the result differs from the id-only lookup — refuting
unconditional id precedence for every options value with both fields
set. -/
theorem getImages_empty_id_counterexample :
    getImages envTwoPhotos (some { id := some "", category := some "A" }) = .many [photoCatA] ∧
    getImages envTwoPhotos (some { id := some "", category := none }) = .many [photoCatA, photoCatB] ∧
    getImages envTwoPhotos (some { id := some "", category := some "A" }) ≠
      getImages envTwoPhotos (some { id := some "", category := none }) := by
  decide

/-- C10 (amended): whenever `options.id` is set to a non-empty string,
`getImages` ignores `category` entirely: the result equals the id-only
lookup, namely the first manifest entry whose `id` matches, or null when
none matches — even on a successfully loaded manifest. -/
theorem getImages_id_precedence (env : FsEnv) (o : GetImagesOptions) (s : String)
    (hid : o.id = some s) (hs : s ≠ "") :
    getImages env (some o) = getImages env (some { id := o.id, category := none }) ∧
    getImages env (some o) =
      (match (readManifest env).find? (fun photo => photo.id == s) with
       | some photo => .one photo
       | none => .nothing) := by
  constructor <;> simp [getImages, hid, strTruthy, hs]

/-- C10 witness: a concrete non-empty id with a category also set. -/
theorem getImages_id_precedence_witness :
    getImages envTwoPhotos (some { id := some "x", category := some "B" }) =
      getImages envTwoPhotos (some { id := some "x", category := none }) ∧
    getImages envTwoPhotos (some { id := some "x", category := some "B" }) = .one photoCatA := by
  have h := getImages_id_precedence envTwoPhotos { id := some "x", category := some "B" } "x"
    rfl (by decide)
  refine ⟨h.1, ?_⟩
  rw [h.2]
  decide

/-! ## Manifest assembler: C3, C4, C5 -/

/-- A successful association-list lookup exhibits a member. -/
theorem mem_of_lookup_eq_some {α β : Type} [BEq α] [LawfulBEq α] {k : α} {v : β} :
    ∀ {l : List (α × β)}, List.lookup k l = some v → (k, v) ∈ l := by
  intro l h
  induction l with
  | nil => simp [List.lookup] at h
  | cons p t ih =>
    rcases p with ⟨a, b⟩
    rw [List.lookup] at h
    cases hab : k == a
    · rw [hab] at h
      exact List.mem_cons_of_mem _ (ih h)
    · rw [hab] at h
      cases h
      have hka : k = a := eq_of_beq hab
      subst hka
      exact List.mem_cons_self _ _

/-- Anatomy of a successful `buildEntry`: the chosen default key, its
upload record, and the exact entry pushed. -/
theorem buildEntry_some_elim (meta : ImageMetadata) (uv : List (String × UTUpload))
    (e : PhotoManifest) (he : buildEntry meta (some uv) = some e) :
    ∃ k u, defaultVariantKey uv = some k ∧ k ≠ "" ∧ List.lookup k uv = some u ∧
      e = { id := u.key,
            category := inferCategory (jsSplit '/' meta.relativePathBase),
            timeOfDay := inferTimeOfDay (jsSplit '/' meta.relativePathBase),
            blurDataUrl := meta.blurDataUrl,
            variants := (metaEntries meta.variants).filterMap fun p =>
              match List.lookup p.1 uv with
              | some u2 => some (p.1, { width := p.2.width, height := p.2.height, url := some u2.url })
              | none => none,
            url := u.url,
            width := ((metaLookup meta.variants k).getD { width := 0, height := 0 }).width,
            height := ((metaLookup meta.variants k).getD { width := 0, height := 0 }).height } := by
  simp only [buildEntry] at he
  split at he
  · exact absurd he (by simp)
  · rename_i k hk
    split at he
    · exact absurd he (by simp)
    · rename_i hkne
      split at he
      · exact absurd he (by simp)
      · rename_i u hu
        refine ⟨k, u, hk, hkne, hu, ?_⟩
        injection he with h
        exact h.symm

/-- C3: every entry of the assembled manifest is traceable to an indexed
metadata record whose `uploadedUrls` slot is present (at least one
successful upload); a photo with no successful upload contributes no
entry, partial or placeholder, since `buildEntry` maps its `none` slot
to `none`. -/
theorem constructManifest_zero_upload_drop (metadataList : List ImageMetadata)
    (uploadedUrls : Nat → Option (List (String × UTUpload))) (e : PhotoManifest)
    (he : e ∈ constructManifest metadataList uploadedUrls) :
    ∃ p ∈ metadataList.enum, (uploadedUrls p.1).isSome ∧
      buildEntry p.2 (uploadedUrls p.1) = some e := by
  rcases List.mem_filterMap.mp he with ⟨p, hp, hbe⟩
  refine ⟨p, hp, ?_, hbe⟩
  cases h : uploadedUrls p.1 with
  | none => rw [h] at hbe; simp [buildEntry] at hbe
  | some uv => simp

/-- A concrete metadata record under `Ceremony/Afternoon`. -/
def metaCeremony : ImageMetadata :=
  { originalName := "p.jpg", relativePathBase := "Ceremony/Afternoon",
    variants := { mobile := { width := 640, height := 320 }, tablet := { width := 1280, height := 640 },
                  desktop := { width := 1920, height := 960 }, full := { width := 3840, height := 1920 } },
    blurDataUrl := "blur" }

/-- The successful-upload slot of `metaCeremony`: only `desktop`
uploaded. -/
def uvDesktopOnly : List (String × UTUpload) := [("desktop", { url := "u", key := "kk" })]

/-- The entry the assembler emits for `metaCeremony` with
`uvDesktopOnly`. -/
def entryCeremony : PhotoManifest :=
  { id := "kk", category := "Ceremony", timeOfDay := "Afternoon", blurDataUrl := "blur",
    variants := [("desktop", { width := 1920, height := 960, url := some "u" })],
    url := "u", width := 1920, height := 960 }

/-- C3 witness: traceability evaluated on a one-photo run. -/
theorem constructManifest_zero_upload_drop_witness :
    ∃ p ∈ [metaCeremony].enum, ((fun _ => some uvDesktopOnly) p.1 : Option _).isSome ∧
      buildEntry p.2 ((fun _ => some uvDesktopOnly) p.1) = some entryCeremony :=
  constructManifest_zero_upload_drop [metaCeremony] (fun _ => some uvDesktopOnly)
    entryCeremony (by decide)

/-- C4: every key of an assembled entry's `variants` map is one of
`mobile`/`tablet`/`desktop`/`full`, exists in the photo's original
metadata, has a recorded successful upload, and (when every recorded
upload url is non-empty, as a real upload response's url is) carries a
non-empty url. -/
theorem buildEntry_variant_keys (meta : ImageMetadata) (uv : List (String × UTUpload))
    (e : PhotoManifest) (hurl : ∀ q ∈ uv, q.2.url ≠ "")
    (he : buildEntry meta (some uv) = some e) :
    ∀ p ∈ e.variants,
      p.1 ∈ ["mobile", "tablet", "desktop", "full"] ∧
      (metaLookup meta.variants p.1).isSome ∧
      (List.lookup p.1 uv).isSome ∧
      ∃ s, p.2.url = some s ∧ s ≠ "" := by
  obtain ⟨k, u, hk, hkne, hu, hee⟩ := buildEntry_some_elim meta uv e he
  subst hee
  intro p hp
  rcases List.mem_filterMap.mp hp with ⟨q, hq, hfq⟩
  rcases hlq : List.lookup q.1 uv with _ | u2 <;> rw [hlq] at hfq
  · simp at hfq
  · simp only [Option.some.injEq] at hfq
    subst hfq
    simp only [metaEntries, List.mem_cons, List.not_mem_nil, or_false] at hq
    rcases hq with h | h | h | h <;>
      subst h <;>
      exact ⟨by simp, by rfl, by rw [hlq]; rfl,
        u2.url, rfl, hurl (_, u2) (mem_of_lookup_eq_some hlq)⟩

/-- C4 witness: the variant-key invariant evaluated on the concrete
`metaCeremony`/`uvDesktopOnly` entry at its `desktop` variant. -/
theorem buildEntry_variant_keys_witness :
    ("desktop" : String) ∈ ["mobile", "tablet", "desktop", "full"] ∧
    (metaLookup metaCeremony.variants "desktop").isSome ∧
    (List.lookup "desktop" uvDesktopOnly).isSome ∧
    ∃ s, (some "u" : Option String) = some s ∧ s ≠ "" := by
  have h := buildEntry_variant_keys metaCeremony uvDesktopOnly entryCeremony
    (by decide) (by decide) ("desktop", { width := 1920, height := 960, url := some "u" })
    (by decide)
  exact h

/-- C5: the default/top-level `id`/`url`/`width`/`height` of an
assembled entry come from the chosen default variant — `desktop` when it
uploaded successfully, else `tablet`, else the first key of the
successful-upload map in insertion order; `id` is the remote key of that
variant, `url` its remote url, `width`/`height` its metadata
dimensions. -/
theorem buildEntry_default_variant (meta : ImageMetadata) (uv : List (String × UTUpload))
    (e : PhotoManifest) (hkeys : ∀ p ∈ uv, p.1 ∈ ["mobile", "tablet", "desktop", "full"])
    (he : buildEntry meta (some uv) = some e) :
    ∃ k u mv, defaultVariantKey uv = some k ∧ List.lookup k uv = some u ∧
      metaLookup meta.variants k = some mv ∧
      e.id = u.key ∧ e.url = u.url ∧ e.width = mv.width ∧ e.height = mv.height ∧
      ((List.lookup "desktop" uv).isSome → k = "desktop") ∧
      ((List.lookup "desktop" uv).isSome = false → (List.lookup "tablet" uv).isSome →
        k = "tablet") ∧
      ((List.lookup "desktop" uv).isSome = false → (List.lookup "tablet" uv).isSome = false →
        uv.head?.map Prod.fst = some k) := by
  obtain ⟨k, u, hk, hkne, hu, hee⟩ := buildEntry_some_elim meta uv e he
  have hchar : (if (List.lookup "desktop" uv).isSome then some "desktop"
      else if (List.lookup "tablet" uv).isSome then some "tablet"
      else uv.head?.map Prod.fst) = some k := by
    rw [← defaultVariantKey]; exact hk
  have hk4 : k ∈ ["mobile", "tablet", "desktop", "full"] := by
    have hc := hchar
    by_cases hd : (List.lookup "desktop" uv).isSome
    · rw [if_pos hd] at hc
      injection hc with hc
      rw [← hc]; simp
    · rw [if_neg hd] at hc
      by_cases ht : (List.lookup "tablet" uv).isSome
      · rw [if_pos ht] at hc
        injection hc with hc
        rw [← hc]; simp
      · rw [if_neg ht] at hc
        rcases uv with _ | ⟨q, t⟩
        · simp at hc
        · simp only [List.head?, Option.map_some'] at hc
          injection hc with hc
          rw [← hc]
          exact hkeys q (List.mem_cons_self q t)
  obtain ⟨mv, hmv⟩ : ∃ mv, metaLookup meta.variants k = some mv := by
    fin_cases hk4 <;> exact ⟨_, rfl⟩
  subst hee
  refine ⟨k, u, mv, hk, hu, hmv, rfl, rfl, by simp [hmv], by simp [hmv], ?_, ?_, ?_⟩
  · intro hd
    rw [if_pos hd] at hchar
    injection hchar with hchar
    exact hchar.symm
  · intro hdf ht
    rw [if_neg (by simp [hdf]), if_pos ht] at hchar
    injection hchar with hchar
    exact hchar.symm
  · intro hdf htf
    rw [if_neg (by simp [hdf]), if_neg (by simp [htf])] at hchar
    exact hchar

/-- Successful uploads for `mobile` and `tablet` only, in upload order. -/
def uvMobileTablet : List (String × UTUpload) :=
  [("mobile", { url := "um", key := "km" }), ("tablet", { url := "ut", key := "kt" })]

/-- The entry the assembler emits for `metaCeremony` with
`uvMobileTablet`: the default falls to `tablet`. -/
def entryMobileTablet : PhotoManifest :=
  { id := "kt", category := "Ceremony", timeOfDay := "Afternoon", blurDataUrl := "blur",
    variants := [("mobile", { width := 640, height := 320, url := some "um" }),
                 ("tablet", { width := 1280, height := 640, url := some "ut" })],
    url := "ut", width := 1280, height := 640 }

/-- C5 witness: the default-variant choice evaluated on a concrete entry
with no successful `desktop` upload. -/
theorem buildEntry_default_variant_witness :
    ∃ k u mv, defaultVariantKey uvMobileTablet = some k ∧
      List.lookup k uvMobileTablet = some u ∧
      metaLookup metaCeremony.variants k = some mv ∧
      entryMobileTablet.id = u.key ∧ entryMobileTablet.url = u.url ∧
      entryMobileTablet.width = mv.width ∧ entryMobileTablet.height = mv.height ∧
      ((List.lookup "desktop" uvMobileTablet).isSome → k = "desktop") ∧
      ((List.lookup "desktop" uvMobileTablet).isSome = false →
        (List.lookup "tablet" uvMobileTablet).isSome → k = "tablet") ∧
      ((List.lookup "desktop" uvMobileTablet).isSome = false →
        (List.lookup "tablet" uvMobileTablet).isSome = false →
        uvMobileTablet.head?.map Prod.fst = some k) :=
  buildEntry_default_variant metaCeremony uvMobileTablet entryMobileTablet
    (by decide) (by decide)

/-! ## C8: upload batch sequencing -/

/-- The batches concatenate back to the original queue. -/
theorem batches_join {α : Type} (l : List α) : (batches l).flatten = l := by
  induction l using batches.induct with
  | case1 => simp [batches]
  | case2 x xs ih =>
    rw [batches]
    rw [List.flatten_cons, ih]
    exact List.take_append_drop _ _

/-- Every batch is non-empty and at most `BATCH_SIZE` long. -/
theorem batches_size_le {α : Type} (l : List α) :
    ∀ b ∈ batches l, b ≠ [] ∧ b.length ≤ BATCH_SIZE := by
  induction l using batches.induct with
  | case1 => simp [batches]
  | case2 x xs ih =>
    intro b hb
    rw [batches] at hb
    rcases List.mem_cons.mp hb with h | h
    · subst h
      constructor
      · have h0 : 0 < ((x :: xs).take BATCH_SIZE).length := by
          rw [List.length_take]
          simp [BATCH_SIZE]
        exact List.length_pos.mp h0
      · rw [List.length_take]
        simp [BATCH_SIZE]
    · exact ih b h

/-- Every batch except possibly the last is exactly `BATCH_SIZE` long. -/
theorem batches_dropLast_size {α : Type} (l : List α) :
    ∀ b ∈ (batches l).dropLast, b.length = BATCH_SIZE := by
  induction l using batches.induct with
  | case1 => simp [batches]
  | case2 x xs ih =>
    intro b hb
    rw [batches] at hb
    by_cases hnil : batches ((x :: xs).drop BATCH_SIZE) = []
    · rw [hnil] at hb
      simp at hb
    · rw [List.dropLast_cons_of_ne_nil hnil] at hb
      rcases List.mem_cons.mp hb with h | h
      · subst h
        have hd : (x :: xs).drop BATCH_SIZE ≠ [] := by
          intro hc
          apply hnil
          rw [hc]
          simp [batches]
        have hlen : BATCH_SIZE < (x :: xs).length := by
          by_contra hle
          push_neg at hle
          exact hd (List.drop_eq_nil_of_le hle)
        rw [List.length_take]
        omega
      · exact ih b h

/-- The number of batches is the length of the queue divided by
`BATCH_SIZE`, rounded up. -/
theorem batches_length {α : Type} (l : List α) :
    (batches l).length = (l.length + BATCH_SIZE - 1) / BATCH_SIZE := by
  induction l using batches.induct with
  | case1 => simp [batches, BATCH_SIZE]
  | case2 x xs ih =>
    rw [batches]
    rw [List.length_cons, ih]
    simp only [List.length_drop, List.length_cons, BATCH_SIZE]
    omega

/-- Every event of the trace from batch `n` on belongs to batch `n` or a
later one. -/
theorem idx_traceFrom {τ : Type} :
    ∀ (bs : List (List τ)) (n : Nat) (e : BatchEv τ), e ∈ traceFrom n bs → n ≤ e.idx := by
  intro bs
  induction bs with
  | nil =>
    intro n e he
    simp [traceFrom] at he
  | cons b t ih =>
    intro n e he
    rw [traceFrom] at he
    rcases List.mem_append.mp he with h | h
    · rcases List.mem_cons.mp h with h | h
      · subst h; simp [BatchEv.idx]
      · rcases List.mem_map.mp h with ⟨a, _, hae⟩
        subst hae; simp [BatchEv.idx]
    · have := ih (n + 1) e h
      omega

/-- A relation that holds of every pair holds pairwise along any list. -/
theorem pairwise_trivial {γ : Type} {R : γ → γ → Prop} (hR : ∀ a b, R a b) :
    ∀ l : List γ, List.Pairwise R l := by
  intro l
  induction l with
  | nil => exact List.Pairwise.nil
  | cons a t ih => exact List.Pairwise.cons (fun b _ => hR a b) ih

/-- Batch indices never decrease along the trace: once a later batch has
begun, no event of an earlier batch occurs. -/
theorem pairwise_traceFrom {τ : Type} :
    ∀ (bs : List (List τ)) (n : Nat),
      List.Pairwise (fun a b => BatchEv.idx a ≤ BatchEv.idx b) (traceFrom n bs) := by
  intro bs
  induction bs with
  | nil => intro n; simp [traceFrom]
  | cons b t ih =>
    intro n
    rw [traceFrom, List.pairwise_append]
    refine ⟨?_, ih (n + 1), ?_⟩
    · constructor
      · intro y hy
        rcases List.mem_map.mp hy with ⟨a, _, hae⟩
        subst hae
        simp [BatchEv.idx]
      · rw [List.pairwise_map]
        exact pairwise_trivial (fun a c => le_refl n) b
    · intro a ha c hc
      have hc1 := idx_traceFrom t (n + 1) c hc
      have ha1 : a.idx = n := by
        rcases List.mem_cons.mp ha with h | h
        · subst h; rfl
        · rcases List.mem_map.mp h with ⟨d, _, hde⟩
          subst hde; rfl
      omega

/-- C8: the upload queue is partitioned into contiguous batches of
`BATCH_SIZE` = 5 (the last possibly smaller but never empty), 12 tasks
make exactly 3 batches, and along the sequential trace the batch index
never decreases: every task of batch `k` settles before any event of
batch `k+1` (in particular before it begins). -/
theorem upload_batching_spec {τ : Type} (queue : List τ) :
    (batches queue).flatten = queue ∧
    (∀ b ∈ batches queue, b ≠ [] ∧ b.length ≤ BATCH_SIZE) ∧
    (∀ b ∈ (batches queue).dropLast, b.length = BATCH_SIZE) ∧
    (queue.length = 12 → (batches queue).length = 3) ∧
    List.Pairwise (fun a b => BatchEv.idx a ≤ BatchEv.idx b) (uploadTrace queue) := by
  refine ⟨batches_join queue, batches_size_le queue, batches_dropLast_size queue, ?_, ?_⟩
  · intro h12
    rw [batches_length, h12]
    decide
  · exact pairwise_traceFrom (batches queue) 0

/-- C8 witness: a queue of 12 concrete tasks. -/
theorem upload_batching_spec_witness :
    (batches (List.range 12)).flatten = List.range 12 ∧
    (batches (List.range 12)).length = 3 :=
  ⟨(upload_batching_spec (List.range 12)).1,
    (upload_batching_spec (List.range 12)).2.2.2.1 (by decide)⟩

/-! ## C9: no upscaling in variant generation -/

/-- The variants object records, for each requested size, exactly the
dimensions read back from the freshly written file — i.e. those of the
`withoutEnlargement` resize result. -/
theorem processSizes_snd (src : RawImage) (outputSubDir relativeDir fileNameNoExt : String) :
    ∀ (sizes : List (String × Nat)) (store : FileStore),
      (processSizes src outputSubDir relativeDir fileNameNoExt sizes store).2 =
        sizes.map fun p =>
          (p.1, { width := (sharpResize src p.2).width, height := (sharpResize src p.2).height,
                  relativePath := some (relativeDir ++ "/" ++ (fileNameNoExt ++ "-" ++ p.1 ++ ".webp")),
                  url := none }) := by
  intro sizes
  induction sizes with
  | nil => intro store; simp [processSizes]
  | cons p rest ih =>
    intro store
    simp only [processSizes, List.map_cons]
    rw [ih]
    simp [List.lookup]

/-- C9: for every size in `SIZES` whose target width is at least the
source's native width, the recorded variant keeps the native dimensions
— read back from the written file — and in the strict case never equals
the requested target width. -/
theorem no_upscaling (src : RawImage) (outputSubDir relativeDir fileNameNoExt : String)
    (sizeName : String) (target : Nat) (hmem : (sizeName, target) ∈ SIZES)
    (hw : src.width ≤ target) :
    ∀ v, (sizeName, v) ∈ processSingleFileVariants src outputSubDir relativeDir fileNameNoExt →
      v.width = src.width ∧ v.height = src.height ∧ (src.width < target → v.width ≠ target) := by
  intro v hv
  rw [processSingleFileVariants, processSizes_snd] at hv
  rcases List.mem_map.mp hv with ⟨q, hq, hqe⟩
  rw [Prod.mk.injEq] at hqe
  obtain ⟨hqe1, hqe2⟩ := hqe
  subst hqe2
  simp only [SIZES, List.mem_cons, List.not_mem_nil, or_false, Prod.mk.injEq] at hq hmem
  rcases hmem with ⟨hm1, hm2⟩ | ⟨hm1, hm2⟩ | ⟨hm1, hm2⟩ | ⟨hm1, hm2⟩ <;>
    rcases hq with h | h | h | h <;>
    subst h <;>
    simp_all [sharpResize] <;>
    omega

/-- An 800×600 source image, smaller than the tablet target width. -/
def srcSmall : RawImage := { width := 800, height := 600 }

/-- The variant the optimizer records for `srcSmall` at the `tablet`
size. -/
def vTabletNative : ImageVariant :=
  { width := 800, height := 600, relativePath := some "rel/img-tablet.webp", url := none }

/-- C9 witness: an 800-wide source at the 1280 tablet target keeps its
native 800×600. -/
theorem no_upscaling_witness :
    vTabletNative.width = srcSmall.width ∧ vTabletNative.height = srcSmall.height ∧
    (srcSmall.width < 1280 → vTabletNative.width ≠ 1280) :=
  no_upscaling srcSmall "out" "rel" "img" "tablet" 1280 (by decide) (by decide)
    vTabletNative (by decide)
